import Mathlib

/-!
Verification of the FLAC metadata block engine (flac.go): a shallow
embedding of the block-layout scanner (findBlocks), the padding-absorbing
comment rewriter (shiftPadding / WriteFLACTags), the signature check of
ReadFLACTags, and the two file shift primitives (ShiftFileLeft,
ShiftFileRight), together with theorems about them.

The stream is modelled as a list of byte values plus a cursor.  Reads
return the available bytes and advance the cursor by the number of bytes
actually read; writes overwrite in place and extend the file when they run
past its end; seeks move the cursor.  Go panics (a reslice beyond the
buffer capacity, a make with a negative size) are modelled by Option.none.
Loops are modelled by fuel recursion with fuel chosen large enough that
the out-of-fuel case is unreachable.
-/

/-- A seekable byte stream: file contents plus a cursor. -/
structure FileStream where
  data : List Nat
  pos : Nat
deriving DecidableEq

/-- Seek relative to the start of the stream. -/
def seekStartS (s : FileStream) (q : Nat) : FileStream := { s with pos := q }

/-- Seek relative to the current position by a signed delta. -/
def seekCurS (s : FileStream) (delta : Int) : FileStream :=
  { s with pos := ((s.pos : Int) + delta).toNat }

/-- Seek to the position lying back bytes before the end of the stream. -/
def seekEndBack (s : FileStream) (back : Nat) : FileStream :=
  { s with pos := s.data.length - back }

/-- Read up to n bytes at the cursor, advancing it by the number of bytes
actually read; a read at end of file returns no bytes (Go reports io.EOF). -/
def readN (s : FileStream) (n : Nat) : List Nat × FileStream :=
  let chunk := (s.data.drop s.pos).take n
  (chunk, { s with pos := s.pos + chunk.length })

/-- Extend the contents with zero bytes up to position q, as a write past
the end of a file fills the hole with zeros. -/
def padTo (d : List Nat) (q : Nat) : List Nat :=
  d ++ List.replicate (q - d.length) 0

/-- Overwrite the bytes of d starting at position q, extending the list
when the write runs past its end. -/
def writeBytes (d : List Nat) (q : Nat) (bs : List Nat) : List Nat :=
  (padTo d q).take q ++ bs ++ (padTo d q).drop (q + bs.length)

/-- Write bytes at the cursor, advancing it past them. -/
def writeS (s : FileStream) (bs : List Nat) : FileStream :=
  { data := writeBytes s.data s.pos bs, pos := s.pos + bs.length }

/-- Modelled from the spec: readInt (a helper not under src/) decodes a
big-endian unsigned integer from the bytes just read; the block length
field is the 3-byte big-endian payload length. -/
def readIntBE (bs : List Nat) : Nat :=
  bs.foldl (fun acc b => acc * 256 + b) 0

/-- Modelled from the spec: formatUintBigEndian (a helper not under src/)
encodes u as n big-endian bytes. -/
def formatUintBigEndian (u n : Nat) : List Nat :=
  (List.range n).map (fun i => u / 256 ^ (n - 1 - i) % 256)

/-- Go conversion of a signed 64-bit integer to uint: reduce mod 2 ^ 64. -/
def intToUint64 (x : Int) : Nat := (x % ((2 : Int) ^ 64)).toNat

/-- The 4-byte container signature fLaC as byte values. -/
def fLaCsig : List Nat := [102, 76, 97, 67]

/-- The layout recorded by the discovery scan, zero-initialised exactly as
the zero value of the source struct flacMetaHeadersLayout. -/
structure flacMetaHeadersLayout where
  commentBlockPos : Nat := 0
  commentBlockLen : Nat := 0
  paddingBlockPos : Nat := 0
  paddingBlockLen : Nat := 0
deriving DecidableEq

/-- The loop of findBlocks.  Each iteration reads one header byte, strips
the last-block flag (bit 7), reads the 3-byte length, records a comment
block (type 4, position of its header, declared length, ordinal index) or
stops at a padding block (type 1) whose ordinal index bi is exactly
commentBlockIndex + 1, and otherwise seeks past the payload.  Read
failures return the error without restoring the cursor, as in the source.
Fuel-indexed; every iteration consumes at least four bytes of the stream,
so the out-of-fuel answer is never reached for the fuel chosen below. -/
def findBlocksLoop : Nat → flacMetaHeadersLayout → FileStream → Nat → Nat →
    Option String × flacMetaHeadersLayout × FileStream
  | 0, m, s, _, _ => (some "out of fuel", m, s)
  | fuel + 1, m, s, bi, commentBlockIndex =>
    let r1 := readN s 1
    if r1.1.length < 1 then (some "short read", m, r1.2) else
    let b0 := r1.1.headD 0
    let last := b0.testBit 7
    let b := if last then b0 ^^^ 128 else b0
    let r2 := readN r1.2 3
    if r2.1.length < 3 then (some "short read", m, r2.2) else
    let blockLen := readIntBE r2.1
    let s2 := r2.2
    if b = 4 then
      let m2 := { m with commentBlockLen := blockLen, commentBlockPos := s2.pos - 4 }
      let s3 := seekCurS s2 (blockLen : Int)
      if last then (none, m2, s3)
      else findBlocksLoop fuel m2 s3 (bi + 1) bi
    else if b = 1 then
      if bi = commentBlockIndex + 1 then
        (none, { m with paddingBlockLen := blockLen, paddingBlockPos := s2.pos - 4 }, s2)
      else
        let s3 := seekCurS s2 (blockLen : Int)
        if last then (none, m, s3)
        else findBlocksLoop fuel m s3 (bi + 1) commentBlockIndex
    else
      let s3 := seekCurS s2 (blockLen : Int)
      if last then (none, m, s3)
      else findBlocksLoop fuel m s3 (bi + 1) commentBlockIndex

/-- findBlocks: the discovery scan.  It restores the cursor on the success
paths (normal termination or the early padding-block stop) and returns
with the cursor wherever the failing read left it on the error path,
exactly as the source does. -/
def findBlocks (s : FileStream) : Option String × flacMetaHeadersLayout × FileStream :=
  let originalPos := s.pos
  match findBlocksLoop (s.data.length + 1) {} s 0 0 with
  | (none, m, t) => (none, m, seekStartS t originalPos)
  | (some e, m, t) => (some e, m, t)

/-- shiftPadding: read the original padding header byte, rewrite it at the
position shifted by the comment growth delta, and follow it with the
shrunk declared length.  Go int arithmetic is modelled on Int and the uint
conversion as reduction mod 2 ^ 64. -/
def shiftPadding (m : flacMetaHeadersLayout) (rw : FileStream)
    (newCommentBlockLen : Nat) : FileStream :=
  let offset : Int := (newCommentBlockLen : Int) - (m.commentBlockLen : Int)
  let newPadBlockLen : Int := (m.paddingBlockLen : Int) - offset
  let newPadBlockPos : Int := (m.paddingBlockPos : Int) + offset
  let s1 := seekStartS rw m.paddingBlockPos
  let r := readN s1 1
  let s2 := seekStartS r.2 newPadBlockPos.toNat
  let s3 := writeS s2 r.1
  writeS s3 (formatUintBigEndian (intToUint64 newPadBlockLen) 3)

/-- WriteFLACTags: check the signature, run the layout scan (whose error
the source discards), then either perform the in-place padding-absorbing
write or return the cannot-write error.  The source line calling
findAndWriteFlacCommentBlock sits after an unconditional error return and
is unreachable, so it is not modelled.  The payload encoder
PrepareVorbisComment is the out-of-scope collaborator, so the function
takes the already-encoded payload as its argument. -/
def WriteFLACTags (rw : FileStream) (preparedVorbisComment : List Nat) :
    Option String × FileStream :=
  let r := readN rw 4
  if r.1.length < 4 then (some "short read", r.2) else
  if r.1 ≠ fLaCsig then (some "expected fLaC", r.2) else
  let fb := findBlocks r.2
  let techMeta := fb.2.1
  let s2 := fb.2.2
  let newCommentBlockLen := preparedVorbisComment.length
  if (newCommentBlockLen : Int) <
      (techMeta.commentBlockLen : Int) + ((techMeta.paddingBlockLen : Int) - 4)
      ∧ techMeta.paddingBlockLen > 0 then
    let s3 := shiftPadding techMeta s2 newCommentBlockLen
    let s4 := seekStartS s3 (techMeta.commentBlockPos + 1)
    let s5 := writeS s4 (formatUintBigEndian newCommentBlockLen 3)
    (none, writeS s5 preparedVorbisComment)
  else
    (some "cannot write tags without padding", s2)

/-- readFLACMetadataBlock: read one block header and consume the payload.
Modelled from the spec: the comment and picture handlers
(readVorbisComment, readPictureBlock, not under src/) are dispatched at the
payload start and consume the payload, so all three switch cases advance
the cursor past the declared payload length. -/
def readFLACMetadataBlock (s : FileStream) : Option String × Bool × FileStream :=
  let r1 := readN s 1
  if r1.1.length < 1 then (some "short read", false, r1.2) else
  let b0 := r1.1.headD 0
  let last := b0.testBit 7
  let r2 := readN r1.2 3
  if r2.1.length < 3 then (some "short read", last, r2.2) else
  let blockLen := readIntBE r2.1
  (none, last, seekCurS r2.2 (blockLen : Int))

/-- The block loop of ReadFLACTags, fuel-indexed. -/
def readFLACLoop : Nat → FileStream → Option String × FileStream
  | 0, s => (some "out of fuel", s)
  | fuel + 1, s =>
    match readFLACMetadataBlock s with
    | (some e, _, t) => (some e, t)
    | (none, true, t) => (none, t)
    | (none, false, t) => readFLACLoop fuel t

/-- ReadFLACTags: check the 4-byte signature first, then walk the block
chain until the last-block flag.  The decoded metadata itself is the
out-of-scope collaborator, so only the error and the stream are returned. -/
def ReadFLACTags (r : FileStream) : Option String × FileStream :=
  let r1 := readN r 4
  if r1.1.length < 4 then (some "short read", r1.2) else
  if r1.1 ≠ fLaCsig then (some "expected fLaC", r1.2) else
  readFLACLoop (r1.2.data.length + 1) r1.2

/-- The loop of ShiftFileLeft: seek offset bytes ahead, read a buffer, and
if anything was read, seek back and write it offset bytes earlier; stop at
end of file.  Fuel-indexed; each non-final iteration advances the cursor
by at least one byte, so the out-of-fuel answer is never reached for the
fuel chosen below. -/
def shiftLeftLoop (offset bufSize : Nat) : Nat → FileStream → FileStream
  | 0, s => s
  | fuel + 1, s =>
    let s1 := seekCurS s (offset : Int)
    let r := readN s1 bufSize
    if r.1.length = 0 then r.2
    else
      let s2 := seekCurS r.2 (-((r.1.length : Int) + (offset : Int)))
      let s3 := writeS s2 r.1
      shiftLeftLoop offset bufSize fuel s3

/-- ShiftFileLeft: pull the contents lying offset bytes to the right of
the cursor back to the cursor, chunk by chunk with a one-megabyte buffer,
until end of file, then restore the cursor.  The source never truncates
the stream (io.ReadWriteSeeker has no Truncate), so the trailing offset
bytes stay in place and the length is unchanged. -/
def ShiftFileLeft (rw : FileStream) (offset : Nat) : FileStream :=
  let originalPosition := rw.pos
  seekStartS (shiftLeftLoop offset (1024 * 1024) (rw.data.length + 1) rw) originalPosition

/-- The loop of ShiftFileRight: read bufLen bytes, write them offset bytes
further right, and walk backward; in the terminal iteration (stop) the
buffer is resliced to offset bytes and written as filler (byte 95) into
the vacated gap.  cap is the capacity of the buffer allocated before the
loop: the Go reslice buf[:offset] panics when offset exceeds it, modelled
as none.  Fuel-indexed; the out-of-fuel answer is never reached for the
fuel chosen below.  In every reachable state the reads are complete
(bufLen bytes are available), so writing the read chunk coincides with the
Go code writing the whole buffer. -/
def shiftRightLoop (offset originalPosition cap : Nat) :
    Nat → FileStream → Nat → Bool → Option FileStream
  | 0, _, _, _ => none
  | fuel + 1, s, bufLen, stop =>
    let r := readN s bufLen
    let s1 := seekCurS r.2 (-(bufLen : Int) + (offset : Int))
    let s2 := writeS s1 r.1
    let s3 := seekCurS s2 (-(bufLen : Int) - (offset : Int))
    if stop then
      if offset ≤ cap then some (writeS s3 (List.replicate offset 95))
      else none
    else
      let curPos := s3.pos
      if (curPos : Int) - (originalPosition : Int) ≥ (bufLen : Int) then
        shiftRightLoop offset originalPosition cap fuel
          (seekCurS s3 (-(bufLen : Int))) bufLen stop
      else
        shiftRightLoop offset originalPosition cap fuel
          (seekCurS s3 (-((curPos : Int) - (originalPosition : Int))))
          (curPos - originalPosition) true

/-- ShiftFileRight: shift the trailing region from the cursor to end of
file right by offset bytes, working backward from the end of file with a
100-byte buffer (shrunk to the trailing distance when that is smaller),
then fill the vacated gap with the filler byte 95 and restore the cursor.
Go panics are modelled as none: make with a negative size (cursor past end
of file) and the terminal reslice buf[:offset] beyond the capacity. -/
def ShiftFileRight (rw : FileStream) (offset : Nat) : Option FileStream :=
  let originalPosition := rw.pos
  let fileSize := rw.data.length
  if (fileSize : Int) - (originalPosition : Int) < 100 then
    if (fileSize : Int) - (originalPosition : Int) < 0 then none
    else
      let bufSize := fileSize - originalPosition
      let s1 := seekEndBack rw bufSize
      (shiftRightLoop offset originalPosition bufSize (fileSize + 2) s1 bufSize true).map
        (fun t => seekStartS t originalPosition)
  else
    let s1 := seekEndBack rw 100
    (shiftRightLoop offset originalPosition 100 (fileSize + 2) s1 100 false).map
      (fun t => seekStartS t originalPosition)

/-- The concrete container of the specification scenarios: a streaminfo
block of length 34, a comment block of declared length 20 whose header
starts at offset 42, followed immediately by a padding block of declared
length 100 whose header starts at offset 66, then 10 audio bytes. -/
def scenarioContainer : List Nat :=
  fLaCsig ++ [0, 0, 0, 34] ++ List.replicate 34 7 ++
  [4, 0, 0, 20] ++ List.replicate 20 9 ++
  [129, 0, 0, 100] ++ List.replicate 100 0 ++ List.replicate 10 55

/-- A chain with no comment block at all: a type-0 block of length 5 at
index 0 followed by a padding block of declared length 100 at index 1. -/
def c6Container : List Nat :=
  [0, 0, 0, 5] ++ List.replicate 5 7 ++ [129, 0, 0, 100] ++ List.replicate 100 0

/-- A container with no comment block: signature, a type-0 block of length
0 at index 0, and a padding block of declared length 100 at index 1. -/
def c8Container : List Nat :=
  fLaCsig ++ [0, 0, 0, 0] ++ [129, 0, 0, 100] ++ List.replicate 100 0

/-- A container whose comment block (declared length 10, header at offset
4) is immediately followed by a padding block of declared length 0. -/
def c2ZeroPadContainer : List Nat :=
  fLaCsig ++ [4, 0, 0, 10] ++ List.replicate 10 8 ++ [129, 0, 0, 0]

set_option maxRecDepth 100000 in
/-- C1: the specification requires WriteFLACTags to fall back to a full
scan-and-shift rewrite when the new payload does not fit the reclaimable
slack; in the spec's concrete scenario (comment length 20 at offset 42,
padding length 100 at offset 66, payload length 200, so 200 is not below
20 + (100 - 4) = 116) the source instead returns the error from the
unconditional return statement, leaves the file bytes unchanged, and the
call to findAndWriteFlacCommentBlock below that return is unreachable. -/
theorem c1_writeFLACTags_no_fallback :
    WriteFLACTags ⟨scenarioContainer, 0⟩ (List.replicate 200 9) =
      (some "cannot write tags without padding", ⟨scenarioContainer, 4⟩) := by
  decide

/-- C6: findBlocks records the padding block even though the chain contains
no comment block at all, because commentBlockIndex is initialised to 0 and
a padding block at ordinal index 1 satisfies bi = commentBlockIndex + 1;
on the chain (type-0 block at index 0, padding at index 1) the scan
records paddingBlockPos 9 and paddingBlockLen 100 and stops. -/
theorem c6_padding_recorded_without_comment :
    findBlocks ⟨c6Container, 0⟩ =
      (none, ⟨0, 0, 9, 100⟩, ⟨c6Container, 0⟩) := by
  decide

set_option maxRecDepth 100000 in
/-- C8: on a container whose chain has no comment block but a padding
block at ordinal index 1, WriteFLACTags does not report a missing-block
error: it returns no error at all and mutates the stream, writing the new
length header at offset 1 (inside the signature, because the zero-valued
commentBlockPos is 0) and the payload at offset 4, and relocating the
padding header. -/
theorem c8_missing_comment_still_writes :
    WriteFLACTags ⟨c8Container, 0⟩ [9, 9, 9, 9, 9] =
      (none, ⟨[102, 0, 0, 5, 9, 9, 9, 9, 9, 0, 0, 100, 0, 129, 0, 0, 95] ++
              List.replicate 95 0, 9⟩) ∧
    ([102, 0, 0, 5, 9, 9, 9, 9, 9, 0, 0, 100, 0, 129, 0, 0, 95] ++
      List.replicate 95 0 : List Nat) ≠ c8Container := by
  constructor
  · decide
  · decide

/-- C2 counterexample: a comment block immediately followed by a padding
block of declared length 0 is recorded by the layout scan, and the claim's
fit condition 5 < 10 + (0 - 4) holds, yet WriteFLACTags does not perform
the in-place padding-absorbing write: the guard paddingBlockLen > 0 fails
and it returns the cannot-write error with the stream unchanged. -/
theorem c2_zero_length_padding_counterexample :
    findBlocks ⟨c2ZeroPadContainer, 4⟩ =
      (none, ⟨4, 10, 18, 0⟩, ⟨c2ZeroPadContainer, 4⟩) ∧
    ((5 : Int) < (10 : Int) + ((0 : Int) - 4)) ∧
    WriteFLACTags ⟨c2ZeroPadContainer, 0⟩ (List.replicate 5 9) =
      (some "cannot write tags without padding", ⟨c2ZeroPadContainer, 4⟩) := by
  refine ⟨by decide, by decide, by decide⟩

/-- C3 counterexample: for an offset larger than the transfer buffer
capacity min 100 (fileSize - cursor), ShiftFileRight panics at the
terminal reslice buf with upper bound offset (modelled as none) instead of
moving the trailing bytes and growing the file. -/
theorem c3_shiftFileRight_large_offset_counterexample :
    ShiftFileRight ⟨List.replicate 10 3, 0⟩ 200 = none := by
  decide

/-- C4 counterexample: ShiftFileLeft never truncates the stream
(io.ReadWriteSeeker has no Truncate), so the resulting length stays equal
to the original length instead of shrinking by the offset. -/
theorem c4_shiftFileLeft_no_truncate_counterexample :
    (ShiftFileLeft ⟨List.replicate 10 5, 0⟩ 4).data.length ≠
      (List.replicate 10 5 : List Nat).length - 4 := by
  decide

/-- C5 counterexample: Shift Left then Shift Right with offset 3 at cursor
2 does not restore the original 10-byte content up to the gap: because
Shift Left does not truncate, the result keeps the 3 stale trailing bytes
and is 13 bytes long, so the file differs from the original beyond the
gap. -/
theorem c5_inverse_counterexample :
    ShiftFileRight (ShiftFileLeft ⟨[0, 1, 2, 3, 4, 5, 6, 7, 8, 9], 2⟩ 3) 3 =
      some ⟨[0, 1, 95, 95, 95, 5, 6, 7, 8, 9, 7, 8, 9], 2⟩ ∧
    ([0, 1, 95, 95, 95, 5, 6, 7, 8, 9, 7, 8, 9] : List Nat).length ≠
      ([0, 1, 2, 3, 4, 5, 6, 7, 8, 9] : List Nat).length := by
  refine ⟨by decide, by decide⟩

/-- C7 counterexample: when the scan fails (here: the chain runs past the
end of the stream, so the next header read is short), findBlocks returns
without restoring the cursor, leaving it where the failing read stopped. -/
theorem c7_error_leaves_cursor_counterexample :
    (findBlocks ⟨[0, 0, 0, 0], 0⟩).1 = some "short read" ∧
    (findBlocks ⟨[0, 0, 0, 0], 0⟩).2.2.pos ≠ (0 : Nat) := by
  refine ⟨by decide, by decide⟩

/-- C7 (amended): whenever findBlocks returns without error, the cursor of
the returned stream equals the cursor position before the call. -/
theorem c7_success_restores_cursor (s : FileStream)
    (h : (findBlocks s).1 = none) : (findBlocks s).2.2.pos = s.pos := by
  rcases hfb : findBlocksLoop (s.data.length + 1) {} s 0 0 with ⟨err, m, t⟩
  cases err with
  | none => simp [findBlocks, hfb, seekStartS]
  | some e => simp [findBlocks, hfb] at h

/-- C7 witness: a one-block chain that scans successfully from cursor 0
and ends with the cursor restored to 0. -/
theorem c7_success_restores_cursor_witness :
    (findBlocks ⟨[129, 0, 0, 0], 0⟩).1 = none ∧
    (findBlocks ⟨[129, 0, 0, 0], 0⟩).2.2.pos = (⟨[129, 0, 0, 0], 0⟩ : FileStream).pos :=
  ⟨by decide, c7_success_restores_cursor ⟨[129, 0, 0, 0], 0⟩ (by decide)⟩

/-- C9: on a stream whose first four bytes are not the signature fLaC,
both ReadFLACTags and WriteFLACTags stop with the format error right
after reading the signature: the contents are untouched and the cursor
stands at 4, before any block was read or any byte written. -/
theorem c9_bad_signature_fails (s : FileStream) (payload : List Nat)
    (hpos : s.pos = 0) (hlen : 4 ≤ s.data.length)
    (hsig : s.data.take 4 ≠ fLaCsig) :
    ReadFLACTags s = (some "expected fLaC", ⟨s.data, 4⟩) ∧
    WriteFLACTags s payload = (some "expected fLaC", ⟨s.data, 4⟩) := by
  obtain ⟨d, p⟩ := s
  simp only at hpos hlen hsig
  subst hpos
  have hch : (d.drop 0).take 4 = d.take 4 := by simp
  have hchunk : (d.take 4).length = 4 := by
    simp [List.length_take]; omega
  constructor
  · simp [ReadFLACTags, readN, hch, hchunk, hsig]
  · simp [WriteFLACTags, readN, hch, hchunk, hsig]

/-- C9 witness: a stream starting with the bytes of Xlac. -/
theorem c9_bad_signature_fails_witness :
    ReadFLACTags ⟨[88, 108, 97, 99, 0, 0], 0⟩ =
      (some "expected fLaC", ⟨[88, 108, 97, 99, 0, 0], 4⟩) ∧
    WriteFLACTags ⟨[88, 108, 97, 99, 0, 0], 0⟩ [1, 2] =
      (some "expected fLaC", ⟨[88, 108, 97, 99, 0, 0], 4⟩) :=
  c9_bad_signature_fails ⟨[88, 108, 97, 99, 0, 0], 0⟩ [1, 2] rfl (by decide) (by decide)

theorem padTo_of_le (d : List Nat) (q : Nat) (h : q ≤ d.length) : padTo d q = d := by
  unfold padTo
  rw [Nat.sub_eq_zero_of_le h]
  simp

theorem writeBytes_eq (d : List Nat) (q : Nat) (bs : List Nat) (h : q ≤ d.length) :
    writeBytes d q bs = d.take q ++ bs ++ d.drop (q + bs.length) := by
  unfold writeBytes
  rw [padTo_of_le d q h]

theorem length_writeBytes (d : List Nat) (q : Nat) (bs : List Nat) (h : q ≤ d.length) :
    (writeBytes d q bs).length = max d.length (q + bs.length) := by
  rw [writeBytes_eq d q bs h]
  simp [List.length_take, List.length_drop]
  omega

theorem take_writeBytes_le (d bs : List Nat) (q k : Nat) (hq : q ≤ d.length) (hk : k ≤ q) :
    (writeBytes d q bs).take k = d.take k := by
  rw [writeBytes_eq d q bs hq]
  rw [List.take_append_of_le_length
    (by rw [List.length_append, List.length_take]; omega)]
  rw [List.take_append_of_le_length (by rw [List.length_take]; omega)]
  rw [List.take_take]
  congr 1
  omega

theorem drop_writeBytes_ge (d bs : List Nat) (q k : Nat) (hq : q ≤ d.length)
    (hk : q + bs.length ≤ k) :
    (writeBytes d q bs).drop k = d.drop k := by
  rw [writeBytes_eq d q bs hq]
  have hlen : (d.take q ++ bs).length = q + bs.length := by
    rw [List.length_append, List.length_take]
    omega
  rw [List.drop_append_eq_append_drop, hlen,
    List.drop_eq_nil_of_le (by rw [hlen]; exact hk)]
  simp only [List.nil_append]
  rw [List.drop_drop]
  congr 1
  omega

theorem drop_writeBytes_start (d bs : List Nat) (q : Nat) (hq : q ≤ d.length) :
    (writeBytes d q bs).drop q = bs ++ d.drop (q + bs.length) := by
  rw [writeBytes_eq d q bs hq, List.append_assoc]
  rw [List.drop_left' (by rw [List.length_take]; omega)]

theorem take_drop_writeBytes_below (d bs : List Nat) (q p k : Nat) (hq : q ≤ d.length)
    (h2 : p + k ≤ q) :
    ((writeBytes d q bs).drop p).take k = (d.drop p).take k := by
  have h3 : ∀ (l : List Nat), (l.drop p).take k = (l.take (p + k)).drop p := by
    intro l
    rw [List.drop_take]
    congr 1
    omega
  rw [h3, h3, take_writeBytes_le d bs q (p + k) hq h2]

theorem take_append_drop_length (l : List Nat) (B : Nat) :
    l.take B ++ l.drop (l.take B).length = l := by
  rcases le_or_lt B l.length with h | h
  · rw [List.length_take, Nat.min_eq_left h, List.take_append_drop]
  · rw [List.take_of_length_le (le_of_lt h), List.drop_length]
    simp

theorem shiftLeftLoop_succ (offset B fuel : Nat) (e : List Nat) (q : Nat) :
    shiftLeftLoop offset B (fuel + 1) ⟨e, q⟩ =
      if ((e.drop (q + offset)).take B).length = 0 then
        ⟨e, q + offset⟩
      else
        shiftLeftLoop offset B fuel
          ⟨writeBytes e q ((e.drop (q + offset)).take B),
           q + ((e.drop (q + offset)).take B).length⟩ := by
  have h1 : ((q : Int) + (offset : Int)).toNat = q + offset := by omega
  have h2 : ∀ (n : Nat),
      (((q + offset + n : Nat) : Int) + -((n : Int) + (offset : Int))).toNat = q := by
    intro n
    omega
  by_cases hn : ((e.drop (q + offset)).take B).length = 0
  · simp [shiftLeftLoop, seekCurS, readN, writeS, h1, hn]
  · simp only [shiftLeftLoop, seekCurS, readN, writeS, h1, h2, if_neg hn]

theorem shiftLeftLoop_data (offset B : Nat) (hB : 1 ≤ B) :
    ∀ (fuel : Nat) (e : List Nat) (q : Nat), e.length + 1 ≤ fuel + q →
      (shiftLeftLoop offset B fuel ⟨e, q⟩).data =
        e.take q ++ e.drop (q + offset) ++ e.drop (max q (e.length - offset)) := by
  intro fuel
  induction fuel with
  | zero =>
    intro e q hf
    simp only [shiftLeftLoop]
    rw [List.take_of_length_le (by omega), List.drop_eq_nil_of_le (by omega),
      List.drop_eq_nil_of_le (by omega)]
    simp
  | succ fuel ih =>
    intro e q hf
    rw [shiftLeftLoop_succ]
    by_cases hn : ((e.drop (q + offset)).take B).length = 0
    · rw [if_pos hn]
      rw [List.length_take, List.length_drop] at hn
      have hge : e.length ≤ q + offset := by omega
      have hmax : max q (e.length - offset) = q := by omega
      rw [List.drop_eq_nil_of_le hge, hmax]
      simp
    · rw [if_neg hn]
      have hchn : ((e.drop (q + offset)).take B).length =
          min B (e.length - (q + offset)) := by
        rw [List.length_take, List.length_drop]
      have hn1 : 1 ≤ ((e.drop (q + offset)).take B).length := by omega
      have hqo : q + offset < e.length := by omega
      have hqe : q ≤ e.length := by omega
      have hbound : q + offset + ((e.drop (q + offset)).take B).length ≤ e.length := by
        omega
      have he2len : (writeBytes e q ((e.drop (q + offset)).take B)).length = e.length := by
        rw [length_writeBytes e q _ hqe]
        omega
      rw [ih _ _ (by omega)]
      rw [he2len]
      have hmax1 : max (q + ((e.drop (q + offset)).take B).length) (e.length - offset) =
          e.length - offset := by omega
      have hmax2 : max q (e.length - offset) = e.length - offset := by omega
      rw [hmax1, hmax2]
      have hA : (writeBytes e q ((e.drop (q + offset)).take B)).take
          (q + ((e.drop (q + offset)).take B).length) =
          e.take q ++ (e.drop (q + offset)).take B := by
        rw [writeBytes_eq e q _ hqe]
        rw [List.take_left' (by rw [List.length_append, List.length_take]; omega)]
      have hBp : (writeBytes e q ((e.drop (q + offset)).take B)).drop
          (q + ((e.drop (q + offset)).take B).length + offset) =
          e.drop (q + ((e.drop (q + offset)).take B).length + offset) := by
        exact drop_writeBytes_ge e _ q _ hqe (by omega)
      have hDp : (writeBytes e q ((e.drop (q + offset)).take B)).drop
          (e.length - offset) =
          e.drop (e.length - offset) := by
        exact drop_writeBytes_ge e _ q _ hqe (by omega)
      rw [hA, hBp, hDp]
      have hE : (e.drop (q + offset)).take B ++
          e.drop (q + ((e.drop (q + offset)).take B).length + offset) =
          e.drop (q + offset) := by
        have hdd : e.drop (q + ((e.drop (q + offset)).take B).length + offset) =
            (e.drop (q + offset)).drop ((e.drop (q + offset)).take B).length := by
          rw [List.drop_drop]
          congr 1
          omega
        rw [hdd, take_append_drop_length]
      have hfinal : e.take q ++ e.drop (q + offset) =
          (e.take q ++ (e.drop (q + offset)).take B) ++
            e.drop (q + ((e.drop (q + offset)).take B).length + offset) := by
        rw [List.append_assoc, hE]
      rw [hfinal]

theorem shiftFileLeft_eq (d : List Nat) (p o : Nat) (hpo : p + o ≤ d.length) :
    ShiftFileLeft ⟨d, p⟩ o = ⟨d.take p ++ d.drop (p + o) ++ d.drop (d.length - o), p⟩ := by
  have hd := shiftLeftLoop_data o (1024 * 1024) (by omega) (d.length + 1) d p (by omega)
  have hmax : max p (d.length - o) = d.length - o := by omega
  rw [hmax] at hd
  simp only [ShiftFileLeft, seekStartS]
  rw [FileStream.mk.injEq]
  exact ⟨hd, rfl⟩

/-- C4 (amended): for a cursor p and offset with p + offset within the
file, ShiftFileLeft moves the bytes from position p + offset onward
forward to position p, restores the cursor, and leaves the file length
unchanged: the last offset bytes stay in place as stale data, because the
source performs no truncation. -/
theorem c4_shiftFileLeft_moves (d : List Nat) (p o : Nat) (hpo : p + o ≤ d.length) :
    ShiftFileLeft ⟨d, p⟩ o =
      ⟨d.take p ++ d.drop (p + o) ++ d.drop (d.length - o), p⟩ ∧
    (ShiftFileLeft ⟨d, p⟩ o).data.length = d.length := by
  refine ⟨shiftFileLeft_eq d p o hpo, ?_⟩
  rw [shiftFileLeft_eq d p o hpo]
  simp only [List.length_append, List.length_take, List.length_drop]
  omega

/-- C4 witness: a concrete 10-byte file shifted left by 3 at cursor 2. -/
theorem c4_shiftFileLeft_moves_witness :
    2 + 3 ≤ ([0, 1, 2, 3, 4, 5, 6, 7, 8, 9] : List Nat).length ∧
    (ShiftFileLeft ⟨[0, 1, 2, 3, 4, 5, 6, 7, 8, 9], 2⟩ 3 =
      ⟨([0, 1, 2, 3, 4, 5, 6, 7, 8, 9] : List Nat).take 2 ++
        ([0, 1, 2, 3, 4, 5, 6, 7, 8, 9] : List Nat).drop (2 + 3) ++
        ([0, 1, 2, 3, 4, 5, 6, 7, 8, 9] : List Nat).drop
          (([0, 1, 2, 3, 4, 5, 6, 7, 8, 9] : List Nat).length - 3), 2⟩ ∧
     (ShiftFileLeft ⟨[0, 1, 2, 3, 4, 5, 6, 7, 8, 9], 2⟩ 3).data.length =
       ([0, 1, 2, 3, 4, 5, 6, 7, 8, 9] : List Nat).length) :=
  ⟨by decide, c4_shiftFileLeft_moves [0, 1, 2, 3, 4, 5, 6, 7, 8, 9] 2 3 (by decide)⟩

theorem shiftRightLoop_succ (o p cap fuel : Nat) (e : List Nat) (q B : Nat) (stop : Bool)
    (hlen : ((e.drop q).take B).length = B) :
    shiftRightLoop o p cap (fuel + 1) ⟨e, q⟩ B stop =
      if stop then
        (if o ≤ cap then
          some (writeS ⟨writeBytes e (q + o) ((e.drop q).take B), q⟩ (List.replicate o 95))
         else none)
      else
        if (q : Int) - (p : Int) ≥ (B : Int) then
          shiftRightLoop o p cap fuel
            ⟨writeBytes e (q + o) ((e.drop q).take B), q - B⟩ B stop
        else
          shiftRightLoop o p cap fuel
            ⟨writeBytes e (q + o) ((e.drop q).take B), p⟩ (q - p) true := by
  have h1 : (((q + B : Nat) : Int) + (-(B : Int) + (o : Int))).toNat = q + o := by omega
  have h2 : (((q + o + B : Nat) : Int) + (-(B : Int) - (o : Int))).toNat = q := by omega
  have h3 : (((q : Nat) : Int) + -(B : Int)).toNat = q - B := by omega
  have h4 : (((q : Nat) : Int) + -((q : Int) - (p : Int))).toNat = p := by omega
  simp only [shiftRightLoop, readN, seekCurS, writeS, hlen, h1, h2, h3, h4]

theorem shiftRight_assemble (e : List Nat) (p q B o : Nat)
    (hpq : p ≤ q) (hqB : q + B ≤ e.length) (hq2 : q + o ≤ e.length) :
    (writeBytes e (q + o) ((e.drop q).take B)).take p ++ List.replicate o 95 ++
      ((writeBytes e (q + o) ((e.drop q).take B)).drop p).take (q - p) ++
      (writeBytes e (q + o) ((e.drop q).take B)).drop (q + o) =
    e.take p ++ List.replicate o 95 ++ (e.drop p).take (q + B - p) ++
      e.drop (q + B + o) := by
  have hlen : ((e.drop q).take B).length = B := by
    rw [List.length_take, List.length_drop]
    omega
  rw [take_writeBytes_le e _ (q + o) p hq2 (by omega)]
  rw [take_drop_writeBytes_below e _ (q + o) p (q - p) hq2 (by omega)]
  rw [drop_writeBytes_start e _ (q + o) hq2]
  rw [hlen]
  have hT : (e.drop p).take (q + B - p) =
      (e.drop p).take (q - p) ++ (e.drop q).take B := by
    rw [show q + B - p = (q - p) + B by omega, List.take_add]
    congr 2
    rw [List.drop_drop]
    congr 1
    omega
  have hD : e.drop (q + B + o) = e.drop (q + o + B) := by
    congr 1
    omega
  rw [hT, hD]
  simp only [List.append_assoc]

theorem shiftRightLoop_some (o p cap : Nat) (ho : o ≤ cap) :
    ∀ (fuel : Nat) (e : List Nat) (q B : Nat) (stop : Bool),
      p ≤ q → q + B ≤ e.length → p + o ≤ e.length → B ≤ cap →
      (stop = false → B = 100 ∧ cap = 100) →
      (stop = true → q = p) →
      (if stop = true then 1 ≤ fuel else q + 4 ≤ fuel) →
      shiftRightLoop o p cap fuel ⟨e, q⟩ B stop =
        some ⟨e.take p ++ List.replicate o 95 ++ (e.drop p).take (q + B - p) ++
                e.drop (q + B + o), p + o⟩ := by
  intro fuel
  induction fuel with
  | zero =>
    intro e q B stop hpq hqB hpo hBc hsf hst hfuel
    cases stop <;> simp at hfuel
  | succ fuel ih =>
    intro e q B stop hpq hqB hpo hBc hsf hst hfuel
    have hlen : ((e.drop q).take B).length = B := by
      rw [List.length_take, List.length_drop]
      omega
    rw [shiftRightLoop_succ o p cap fuel e q B stop hlen]
    cases stop with
    | true =>
      have hq : q = p := hst rfl
      subst hq
      rw [if_pos rfl, if_pos ho]
      have hq2 : q + o ≤ e.length := hpo
      have hfull : writeS ⟨writeBytes e (q + o) ((e.drop q).take B), q⟩
          (List.replicate o 95) =
          ⟨(writeBytes e (q + o) ((e.drop q).take B)).take q ++ List.replicate o 95 ++
             (writeBytes e (q + o) ((e.drop q).take B)).drop (q + o), q + o⟩ := by
        simp only [writeS]
        rw [FileStream.mk.injEq]
        constructor
        · rw [writeBytes_eq _ q _ (by rw [length_writeBytes e (q + o) _ hq2]; omega)]
          rw [List.length_replicate]
        · rw [List.length_replicate]
      rw [hfull]
      have := shiftRight_assemble e q q B o (le_refl q) hqB hq2
      rw [take_drop_writeBytes_below e _ (q + o) q (q - q) hq2 (by omega)] at this
      simp only [Nat.sub_self, List.take_zero, List.append_nil] at this
      rw [Option.some.injEq, FileStream.mk.injEq]
      refine ⟨?_, rfl⟩
      calc (writeBytes e (q + o) ((e.drop q).take B)).take q ++ List.replicate o 95 ++
            (writeBytes e (q + o) ((e.drop q).take B)).drop (q + o)
          = (writeBytes e (q + o) ((e.drop q).take B)).take q ++ List.replicate o 95 ++
            [] ++ (writeBytes e (q + o) ((e.drop q).take B)).drop (q + o) := by
            simp
        _ = e.take q ++ List.replicate o 95 ++ (e.drop q).take (q + B - q) ++
            e.drop (q + B + o) := by
            rw [← this]
            simp
    | false =>
      obtain ⟨hB100, hcap100⟩ := hsf rfl
      have hf2 : q + 4 ≤ fuel + 1 := by simpa using hfuel
      rw [if_neg (by simp)]
      have hq2 : q + o ≤ e.length := by omega
      have he2q : q ≤ (writeBytes e (q + o) ((e.drop q).take B)).length := by
        rw [length_writeBytes e (q + o) _ hq2]
        omega
      have he2len : e.length ≤ (writeBytes e (q + o) ((e.drop q).take B)).length := by
        rw [length_writeBytes e (q + o) _ hq2]
        omega
      by_cases hge : (q : Int) - (p : Int) ≥ (B : Int)
      · rw [if_pos hge]
        rw [ih _ (q - B) B false (by omega) (by omega) (by omega) hBc
          (fun _ => ⟨hB100, hcap100⟩) (by simp) (by simp; omega)]
        rw [show q - B + B = q by omega]
        rw [Option.some.injEq, FileStream.mk.injEq]
        refine ⟨?_, rfl⟩
        exact shiftRight_assemble e p q B o hpq hqB hq2
      · rw [if_neg hge]
        rw [ih _ p (q - p) true (le_refl p) (by omega) (by omega) (by omega)
          (by simp) (fun _ => rfl) (by simp; omega)]
        rw [show p + (q - p) = q by omega]
        rw [Option.some.injEq, FileStream.mk.injEq]
        refine ⟨?_, rfl⟩
        exact shiftRight_assemble e p q B o hpq hqB hq2

theorem shiftRightLoop_none (o p cap : Nat) (ho : cap < o) :
    ∀ (fuel : Nat) (s : FileStream) (B : Nat) (stop : Bool),
      shiftRightLoop o p cap fuel s B stop = none := by
  intro fuel
  induction fuel with
  | zero => intro s B stop; rfl
  | succ fuel ih =>
    intro s B stop
    simp only [shiftRightLoop]
    cases stop with
    | true =>
      rw [if_pos rfl, if_neg (by omega)]
    | false =>
      rw [if_neg (by simp)]
      split
      · exact ih _ _ _
      · exact ih _ _ _

theorem shiftFileRight_eq (d : List Nat) (p o : Nat) (hp : p ≤ d.length)
    (ho : o ≤ min 100 (d.length - p)) :
    ShiftFileRight ⟨d, p⟩ o = some ⟨d.take p ++ List.replicate o 95 ++ d.drop p, p⟩ := by
  unfold ShiftFileRight
  dsimp only
  by_cases hsmall : (d.length : Int) - (p : Int) < 100
  · rw [if_pos hsmall, if_neg (by omega)]
    have hq : d.length - (d.length - p) = p := by omega
    simp only [seekEndBack, hq]
    rw [shiftRightLoop_some o p (d.length - p) (by omega) (d.length + 2) d p
      (d.length - p) true (le_refl p) (by omega) (by omega) (le_refl _)
      (by simp) (fun _ => rfl) (by simp)]
    simp only [Option.map_some']
    rw [Option.some.injEq]
    simp only [seekStartS]
    rw [FileStream.mk.injEq]
    refine ⟨?_, rfl⟩
    have h1 : (d.drop p).take (p + (d.length - p) - p) = d.drop p := by
      rw [show p + (d.length - p) - p = d.length - p by omega]
      exact List.take_of_length_le (by rw [List.length_drop])
    have h2 : d.drop (p + (d.length - p) + o) = [] := by
      apply List.drop_eq_nil_of_le
      omega
    rw [h1, h2]
    simp
  · rw [if_neg hsmall]
    simp only [seekEndBack]
    rw [shiftRightLoop_some o p 100 (by omega) (d.length + 2) d (d.length - 100)
      100 false (by omega) (by omega) (by omega) (le_refl _)
      (fun _ => ⟨rfl, rfl⟩) (by simp) (by simp; omega)]
    simp only [Option.map_some']
    rw [Option.some.injEq]
    simp only [seekStartS]
    rw [FileStream.mk.injEq]
    refine ⟨?_, rfl⟩
    have h1 : (d.drop p).take (d.length - 100 + 100 - p) = d.drop p := by
      rw [show d.length - 100 + 100 - p = d.length - p by omega]
      exact List.take_of_length_le (by rw [List.length_drop])
    have h2 : d.drop (d.length - 100 + 100 + o) = [] := by
      apply List.drop_eq_nil_of_le
      omega
    rw [h1, h2]
    simp

theorem shiftFileRight_none_of_gt (d : List Nat) (p o : Nat) (hp : p ≤ d.length)
    (ho : min 100 (d.length - p) < o) :
    ShiftFileRight ⟨d, p⟩ o = none := by
  unfold ShiftFileRight
  dsimp only
  by_cases hsmall : (d.length : Int) - (p : Int) < 100
  · rw [if_pos hsmall, if_neg (by omega)]
    rw [shiftRightLoop_none o p (d.length - p) (by omega)]
    rfl
  · rw [if_neg hsmall]
    rw [shiftRightLoop_none o p 100 (by omega)]
    rfl

/-- C10: with the cursor at p inside a file of size S, ShiftFileRight
completes without panicking exactly when the offset is at most
min 100 (S - p), the capacity of the transfer buffer it allocates; for any
larger offset the terminal reslice of the buffer to offset bytes exceeds
that capacity (a Go slice-bounds panic, modelled as none). -/
theorem c10_shiftFileRight_totality (d : List Nat) (p o : Nat) (hp : p ≤ d.length) :
    (ShiftFileRight ⟨d, p⟩ o).isSome = true ↔ o ≤ min 100 (d.length - p) := by
  constructor
  · intro hs
    by_contra hgt
    rw [shiftFileRight_none_of_gt d p o hp (by omega)] at hs
    simp at hs
  · intro hle
    rw [shiftFileRight_eq d p o hp hle]
    rfl

/-- C10 witness: a 5-byte file, cursor 2, offset 3 = min 100 (5 - 2). -/
theorem c10_shiftFileRight_totality_witness :
    2 ≤ (List.replicate 5 1 : List Nat).length ∧
    ((ShiftFileRight ⟨List.replicate 5 1, 2⟩ 3).isSome = true ↔
      3 ≤ min 100 ((List.replicate 5 1 : List Nat).length - 2)) :=
  ⟨by decide, c10_shiftFileRight_totality (List.replicate 5 1) 2 3 (by decide)⟩

/-- C3 (amended): for a positive offset at most min 100 (fileSize - p),
ShiftFileRight moves every byte from the cursor p onward up by offset
positions (the trailing region is processed backward chunk by chunk, the
terminal partial chunk with a shrunken buffer), fills the vacated gap of
exactly offset bytes with the filler byte, restores the cursor, and grows
the file length by exactly offset. -/
theorem c3_shiftFileRight_shifts (d : List Nat) (p o : Nat) (h1 : 1 ≤ o)
    (ho : o ≤ min 100 (d.length - p)) :
    ShiftFileRight ⟨d, p⟩ o = some ⟨d.take p ++ List.replicate o 95 ++ d.drop p, p⟩ ∧
    (ShiftFileRight ⟨d, p⟩ o).map (fun t => t.data.length) = some (d.length + o) := by
  have hp : p ≤ d.length := by omega
  refine ⟨shiftFileRight_eq d p o hp ho, ?_⟩
  rw [shiftFileRight_eq d p o hp ho]
  simp only [Option.map_some', Option.some.injEq, List.length_append,
    List.length_take, List.length_drop, List.length_replicate]
  omega

/-- C3 witness: a 7-byte file, cursor 2, offset 3. -/
theorem c3_shiftFileRight_shifts_witness :
    (1 ≤ 3 ∧ 3 ≤ min 100 (([1, 2, 3, 4, 5, 6, 7] : List Nat).length - 2)) ∧
    (ShiftFileRight ⟨[1, 2, 3, 4, 5, 6, 7], 2⟩ 3 =
      some ⟨([1, 2, 3, 4, 5, 6, 7] : List Nat).take 2 ++ List.replicate 3 95 ++
            ([1, 2, 3, 4, 5, 6, 7] : List Nat).drop 2, 2⟩ ∧
     (ShiftFileRight ⟨[1, 2, 3, 4, 5, 6, 7], 2⟩ 3).map (fun t => t.data.length) =
       some (([1, 2, 3, 4, 5, 6, 7] : List Nat).length + 3)) :=
  ⟨⟨by decide, by decide⟩,
    c3_shiftFileRight_shifts [1, 2, 3, 4, 5, 6, 7] 2 3 (by decide) (by decide)⟩

/-- C5 (amended): Shift Left then Shift Right with the same offset at the
same original cursor restores the original bytes at every position below
the original length except the gap of exactly offset filler bytes at the
cursor; but because Shift Left does not truncate, the result additionally
carries offset stale trailing bytes (a copy of the original last offset
bytes), so the file is offset bytes longer than the original. -/
theorem c5_left_then_right (d : List Nat) (p o : Nat) (h1 : 1 ≤ o)
    (hpo : p + o ≤ d.length) (ho : o ≤ min 100 (d.length - p)) :
    ShiftFileRight (ShiftFileLeft ⟨d, p⟩ o) o =
      some ⟨(d.take p ++ List.replicate o 95 ++ d.drop (p + o)) ++
              d.drop (d.length - o), p⟩ := by
  rw [shiftFileLeft_eq d p o hpo]
  have hE : (d.take p ++ d.drop (p + o) ++ d.drop (d.length - o)).length = d.length := by
    simp only [List.length_append, List.length_take, List.length_drop]
    omega
  rw [shiftFileRight_eq (d.take p ++ d.drop (p + o) ++ d.drop (d.length - o)) p o
    (by rw [hE]; omega) (by rw [hE]; exact ho)]
  rw [Option.some.injEq, FileStream.mk.injEq]
  refine ⟨?_, rfl⟩
  have hA : (d.take p).length = p := by
    rw [List.length_take]
    omega
  have h2 : (d.take p ++ d.drop (p + o) ++ d.drop (d.length - o)).take p = d.take p := by
    rw [List.append_assoc, List.take_append_of_le_length (by omega),
      List.take_take]
    congr 1
    omega
  have h3 : (d.take p ++ d.drop (p + o) ++ d.drop (d.length - o)).drop p =
      d.drop (p + o) ++ d.drop (d.length - o) := by
    rw [List.append_assoc, List.drop_left' hA]
  rw [h2, h3]
  simp only [List.append_assoc]

/-- C5 witness: a 10-byte file, cursor 2, offset 3. -/
theorem c5_left_then_right_witness :
    (1 ≤ 3 ∧ 2 + 3 ≤ ([0, 1, 2, 3, 4, 5, 6, 7, 8, 9] : List Nat).length ∧
     3 ≤ min 100 (([0, 1, 2, 3, 4, 5, 6, 7, 8, 9] : List Nat).length - 2)) ∧
    ShiftFileRight (ShiftFileLeft ⟨[0, 1, 2, 3, 4, 5, 6, 7, 8, 9], 2⟩ 3) 3 =
      some ⟨(([0, 1, 2, 3, 4, 5, 6, 7, 8, 9] : List Nat).take 2 ++ List.replicate 3 95 ++
              ([0, 1, 2, 3, 4, 5, 6, 7, 8, 9] : List Nat).drop (2 + 3)) ++
             ([0, 1, 2, 3, 4, 5, 6, 7, 8, 9] : List Nat).drop
               (([0, 1, 2, 3, 4, 5, 6, 7, 8, 9] : List Nat).length - 3), 2⟩ :=
  ⟨⟨by decide, by decide, by decide⟩,
    c5_left_then_right [0, 1, 2, 3, 4, 5, 6, 7, 8, 9] 2 3 (by decide) (by decide) (by decide)⟩

theorem length_formatUintBigEndian (u n : Nat) : (formatUintBigEndian u n).length = n := by
  simp [formatUintBigEndian]

theorem formatUintBigEndian_three (u : Nat) :
    formatUintBigEndian u 3 = [u / 65536 % 256, u / 256 % 256, u % 256] := by
  show [u / 256 ^ 2 % 256, u / 256 ^ 1 % 256, u / 256 ^ 0 % 256] = _
  norm_num

theorem readIntBE_formatUintBigEndian (u : Nat) (h : u < 16777216) :
    readIntBE (formatUintBigEndian u 3) = u := by
  rw [formatUintBigEndian_three]
  simp only [readIntBE, List.foldl]
  omega

theorem intToUint64_of_lt (x : Int) (h0 : 0 ≤ x) (h1 : x < 2 ^ 64) :
    intToUint64 x = x.toNat := by
  unfold intToUint64
  rw [Int.emod_eq_of_lt h0 h1]

theorem writeBytes_append_left (A T bs : List Nat) (k : Nat)
    (h : k + bs.length ≤ A.length) :
    writeBytes (A ++ T) k bs = writeBytes A k bs ++ T := by
  rw [writeBytes_eq _ _ _ (by rw [List.length_append]; omega),
    writeBytes_eq _ _ _ (by omega)]
  rw [List.take_append_of_le_length (by omega),
    List.drop_append_eq_append_drop,
    Nat.sub_eq_zero_of_le h, List.drop_zero]
  simp only [List.append_assoc]

theorem inplace_write_data (d payload ch1 enc1 enc2 : List Nat) (c : Nat)
    (hch1 : ch1.length = 1) (henc1 : enc1.length = 3) (henc2 : enc2.length = 3)
    (hsz : c + 8 + payload.length ≤ d.length) :
    writeBytes (writeBytes (writeBytes (writeBytes d (c + 4 + payload.length) ch1)
        (c + 5 + payload.length) enc2) (c + 1) enc1) (c + 4) payload =
      d.take (c + 1) ++ enc1 ++ payload ++ ch1 ++ enc2 ++
        d.drop (c + 8 + payload.length) := by
  have he1 : writeBytes d (c + 4 + payload.length) ch1 =
      d.take (c + 4 + payload.length) ++ ch1 ++ d.drop (c + 5 + payload.length) := by
    rw [writeBytes_eq d _ _ (by omega), hch1,
      show c + 4 + payload.length + 1 = c + 5 + payload.length by omega]
  have he1len : (writeBytes d (c + 4 + payload.length) ch1).length = d.length := by
    rw [length_writeBytes d _ _ (by omega), hch1]
    omega
  have he1take : (writeBytes d (c + 4 + payload.length) ch1).take (c + 5 + payload.length) =
      d.take (c + 4 + payload.length) ++ ch1 := by
    rw [he1, List.take_append_of_le_length
      (by rw [List.length_append, List.length_take, hch1]; omega)]
    rw [List.take_of_length_le (by rw [List.length_append, List.length_take, hch1]; omega)]
  have he2 : writeBytes (writeBytes d (c + 4 + payload.length) ch1)
      (c + 5 + payload.length) enc2 =
      d.take (c + 4 + payload.length) ++
        (ch1 ++ (enc2 ++ d.drop (c + 8 + payload.length))) := by
    rw [writeBytes_eq _ _ _ (by rw [he1len]; omega), henc2,
      show c + 5 + payload.length + 3 = c + 8 + payload.length by omega,
      drop_writeBytes_ge d ch1 (c + 4 + payload.length) (c + 8 + payload.length)
        (by omega) (by rw [hch1]; omega),
      he1take]
    simp only [List.append_assoc]
  have hWlen : (d.take (c + 4 + payload.length)).length = c + 4 + payload.length := by
    rw [List.length_take]
    omega
  have hW1len : (writeBytes (d.take (c + 4 + payload.length)) (c + 1) enc1).length =
      c + 4 + payload.length := by
    rw [length_writeBytes _ _ _ (by rw [hWlen]; omega), hWlen, henc1]
    omega
  have hW1eq : writeBytes (d.take (c + 4 + payload.length)) (c + 1) enc1 =
      d.take (c + 1) ++ enc1 ++ (d.drop (c + 4)).take payload.length := by
    rw [writeBytes_eq _ _ _ (by rw [hWlen]; omega), henc1,
      show c + 1 + 3 = c + 4 by omega, List.take_take, List.drop_take,
      show min (c + 1) (c + 4 + payload.length) = c + 1 by omega,
      show c + 4 + payload.length - (c + 4) = payload.length by omega]
  have hW2eq : writeBytes (writeBytes (d.take (c + 4 + payload.length)) (c + 1) enc1)
      (c + 4) payload = (d.take (c + 1) ++ enc1) ++ payload := by
    rw [writeBytes_eq _ _ _ (by rw [hW1len]; omega), hW1eq]
    rw [List.take_left' (by rw [List.length_append, List.length_take, henc1]; omega)]
    rw [List.drop_eq_nil_of_le (by
      simp only [List.length_append, List.length_take, List.length_drop, henc1]
      omega)]
    simp
  rw [he2, writeBytes_append_left _ _ _ _ (by rw [hWlen, henc1]; omega),
    writeBytes_append_left _ _ _ _ (by rw [hW1len]), hW2eq]
  simp only [List.append_assoc]

/-- C2 (amended): for every container whose layout scan finds a comment
block of declared length cl at offset c immediately followed by a padding
block of declared length L with 0 < L, and a payload with
len(payload) < cl + (L - 4) whose relocated padding length L + cl - len
fits the 24-bit field, WriteFLACTags performs the in-place
padding-absorbing write: the comment length header and payload are written
at the comment block's original offset, the padding header byte is
relocated to directly after the payload with declared length
L - (len - cl) = L + cl - len, no byte before offset c + 1 or from offset
c + 8 + len onward changes, and the total file length is unchanged. -/
theorem c2_padding_absorbing_write (d payload : List Nat) (c cl P L : Nat)
    (hsig : d.take 4 = fLaCsig)
    (hfind : findBlocks ⟨d, 4⟩ = (none, ⟨c, cl, P, L⟩, ⟨d, 4⟩))
    (hadj : P = c + 4 + cl)
    (hL : 0 < L)
    (hfit : (payload.length : Int) < (cl : Int) + ((L : Int) - 4))
    (hsz : P + 4 + L ≤ d.length)
    (hrange : L + cl - payload.length < 16777216) :
    WriteFLACTags ⟨d, 0⟩ payload =
      (none,
       ⟨d.take (c + 1) ++ formatUintBigEndian payload.length 3 ++ payload ++
          (d.drop P).take 1 ++ formatUintBigEndian (L + cl - payload.length) 3 ++
          d.drop (c + 8 + payload.length),
        c + 4 + payload.length⟩) ∧
    (WriteFLACTags ⟨d, 0⟩ payload).2.data.length = d.length ∧
    readIntBE (formatUintBigEndian (L + cl - payload.length) 3) =
      L + cl - payload.length := by
  have h4len : 4 ≤ d.length := by
    have h := congrArg List.length hsig
    rw [List.length_take] at h
    simp only [fLaCsig, List.length_cons, List.length_nil] at h
    omega
  have hszcore : c + 8 + payload.length ≤ d.length := by omega
  have hPlt : P < d.length := by omega
  have hchunk1 : ((d.drop P).take 1).length = 1 := by
    rw [List.length_take, List.length_drop]
    omega
  have hval : intToUint64 ((L : Int) - ((payload.length : Int) - (cl : Int))) =
      L + cl - payload.length := by
    rw [intToUint64_of_lt _ (by omega) (by omega)]
    omega
  have hread : readN ⟨d, 0⟩ 4 = (fLaCsig, ⟨d, 4⟩) := by
    simp only [readN, List.drop_zero, hsig]
    rfl
  have hp1 : ((P : Int) + ((payload.length : Int) - (cl : Int))).toNat =
      c + 4 + payload.length := by omega
  have hq1 : c + 4 + payload.length + 1 = c + 5 + payload.length := by omega
  have hq2 : c + 5 + payload.length + 3 = c + 8 + payload.length := by omega
  have hpadres : shiftPadding ⟨c, cl, P, L⟩ ⟨d, 4⟩ payload.length =
      ⟨writeBytes (writeBytes d (c + 4 + payload.length) ((d.drop P).take 1))
         (c + 5 + payload.length) (formatUintBigEndian (L + cl - payload.length) 3),
       c + 8 + payload.length⟩ := by
    unfold shiftPadding
    dsimp only
    simp only [seekStartS, readN, writeS, hval, hp1, hchunk1,
      length_formatUintBigEndian, hq1, hq2]
  have hmain : WriteFLACTags ⟨d, 0⟩ payload =
      (none,
       ⟨d.take (c + 1) ++ formatUintBigEndian payload.length 3 ++ payload ++
          (d.drop P).take 1 ++ formatUintBigEndian (L + cl - payload.length) 3 ++
          d.drop (c + 8 + payload.length),
        c + 4 + payload.length⟩) := by
    unfold WriteFLACTags
    dsimp only
    rw [hread]
    dsimp only
    rw [if_neg (by decide), if_neg (by simp), hfind]
    dsimp only
    rw [if_pos ⟨hfit, hL⟩, hpadres]
    simp only [seekStartS, writeS, length_formatUintBigEndian,
      show c + 1 + 3 = c + 4 by omega]
    rw [Prod.mk.injEq, FileStream.mk.injEq]
    refine ⟨rfl, ?_, rfl⟩
    exact inplace_write_data d payload ((d.drop P).take 1)
      (formatUintBigEndian payload.length 3)
      (formatUintBigEndian (L + cl - payload.length) 3) c hchunk1
      (length_formatUintBigEndian _ 3) (length_formatUintBigEndian _ 3) hszcore
  refine ⟨hmain, ?_, readIntBE_formatUintBigEndian _ hrange⟩
  rw [hmain]
  simp only [List.length_append, List.length_take, List.length_drop,
    length_formatUintBigEndian, hchunk1]
  omega

set_option maxRecDepth 100000 in
/-- C2 witness: the spec scenario container (comment length 20 at offset
42, padding length 100 at offset 66) rewritten with a payload of length
30: length header 30 at offset 43, payload at 46, padding header byte
relocated to 76 with declared length 90, file length unchanged. -/
theorem c2_padding_absorbing_write_witness :
    (scenarioContainer.take 4 = fLaCsig ∧
     findBlocks ⟨scenarioContainer, 4⟩ =
       (none, ⟨42, 20, 66, 100⟩, ⟨scenarioContainer, 4⟩) ∧
     (66 : Nat) = 42 + 4 + 20 ∧
     (0 : Nat) < 100 ∧
     (((List.replicate 30 9 : List Nat).length : Int) < (20 : Int) + ((100 : Int) - 4)) ∧
     66 + 4 + 100 ≤ scenarioContainer.length ∧
     100 + 20 - (List.replicate 30 9 : List Nat).length < 16777216) ∧
    (WriteFLACTags ⟨scenarioContainer, 0⟩ (List.replicate 30 9) =
      (none,
       ⟨scenarioContainer.take (42 + 1) ++
          formatUintBigEndian (List.replicate 30 9 : List Nat).length 3 ++
          List.replicate 30 9 ++ (scenarioContainer.drop 66).take 1 ++
          formatUintBigEndian (100 + 20 - (List.replicate 30 9 : List Nat).length) 3 ++
          scenarioContainer.drop (42 + 8 + (List.replicate 30 9 : List Nat).length),
        42 + 4 + (List.replicate 30 9 : List Nat).length⟩) ∧
     (WriteFLACTags ⟨scenarioContainer, 0⟩ (List.replicate 30 9)).2.data.length =
       scenarioContainer.length ∧
     readIntBE (formatUintBigEndian
       (100 + 20 - (List.replicate 30 9 : List Nat).length) 3) =
       100 + 20 - (List.replicate 30 9 : List Nat).length) :=
  ⟨⟨by decide, by decide, by decide, by decide, by decide, by decide, by decide⟩,
   c2_padding_absorbing_write scenarioContainer (List.replicate 30 9) 42 20 66 100
     (by decide) (by decide) (by decide) (by decide) (by decide) (by decide) (by decide)⟩
